import Mathlib

/-!
Verification of the mdparser extraction engine (src/mdparser/extractors.py and
src/mdparser/utils.py) against its specification.

The Markdown document tree produced by the external Mistletoe parser is
embedded as the inductive `Token`; a parsed `Document` is represented by its
list of top-level children.  Python strings are Lean `String`s; Python's
case folding and whitespace classes are modelled on their ASCII core.
Optional parameters are `Option` values, with Python truthiness (where the
source tests truthiness rather than `is None`) made explicit via `pyTruthyNat`
/ `pyTruthyStr`.
-/

/-- Embedding of the Mistletoe token kinds the extractors distinguish:
`Heading` (with its level), `Paragraph`, `Strong` (bold), `Emphasis` (italic),
and raw text spans, which carry a `content` attribute.  All other token kinds
behave, for the code under verification, like `paragraph` (a node with a
`children` attribute) or `rawText` (a node with a `content` attribute). -/
inductive Token where
  | heading (level : Nat) (children : List Token)
  | paragraph (children : List Token)
  | strong (children : List Token)
  | emphasis (children : List Token)
  | rawText (content : String)
deriving Repr

/-- Python `hasattr(token, "children")`, returning the children when present.
Raw text tokens carry `content`, not `children`. -/
def children? : Token → Option (List Token)
  | Token.heading _ cs => some cs
  | Token.paragraph cs => some cs
  | Token.strong cs => some cs
  | Token.emphasis cs => some cs
  | Token.rawText _ => none

/-- Python `isinstance(token, Paragraph)`. -/
def isParagraph : Token → Bool
  | Token.paragraph _ => true
  | _ => false

/-- Python `hasattr(token, "children") and token.children` (truthy check). -/
def hasNonemptyChildren (t : Token) : Bool :=
  match children? t with
  | some cs => !cs.isEmpty
  | none => false

/-- ASCII core of Python's whitespace class (`str.strip`, regex `\s`). -/
def isPySpace (c : Char) : Bool :=
  c == ' ' || c == '\t' || c == '\n' || c == '\x0d' || c == '\x0b' || c == '\x0c'

/-- Python `str.strip()` (ASCII whitespace). -/
def pyStrip (s : String) : String :=
  String.mk (((s.toList.dropWhile isPySpace).reverse.dropWhile isPySpace).reverse)

/-- Python `str.lower()` (ASCII case folding). -/
def pyLower (s : String) : String :=
  String.mk (s.toList.map Char.toLower)

/-- Character-list version of `List.isPrefixOf`. -/
def listStartsWith : List Char → List Char → Bool
  | _, [] => true
  | [], _ :: _ => false
  | a :: hay, b :: sub => a == b && listStartsWith hay sub

/-- `sub` occurs as a contiguous run inside `hay`. -/
def listHasInfix : List Char → List Char → Bool
  | [], sub => sub.isEmpty
  | a :: hay, sub => listStartsWith (a :: hay) sub || listHasInfix hay sub

/-- Python substring test `sub in hay`. -/
def pyContains (hay sub : String) : Bool :=
  listHasInfix hay.toList sub.toList

/-- Python truthiness of an optional integer (`None` and `0` are falsy). -/
def pyTruthyNat : Option Nat → Bool
  | none => false
  | some n => n != 0

/-- Python truthiness of an optional string (`None` and `""` are falsy). -/
def pyTruthyStr : Option String → Bool
  | none => false
  | some s => s != ""

/-- `"\n".join(parts)`. -/
def joinNl (parts : List String) : String :=
  String.intercalate "\n" parts

/-- Python `s.split("\n")`: split at every newline, keeping empty segments
(the empty string yields one empty segment). -/
def splitCharList (sep : Char) : List Char → List (List Char)
  | [] => [[]]
  | c :: rest =>
    match splitCharList sep rest with
    | [] => [[]]
    | seg :: segs => if c == sep then [] :: seg :: segs else (c :: seg) :: segs

/-- Python `content.split("\n")` on strings. -/
def pySplitLines (s : String) : List String :=
  (splitCharList '\n' s.toList).map String.mk

/-- `"#" * level`. -/
def hashRun (level : Nat) : String :=
  String.mk (List.replicate level '#')

mutual
/-- `_extract_text_from_token` (extractors.py:382): headings concatenate the
extraction of their children; tokens with a `content` attribute yield it;
other tokens with children concatenate the extraction of the children. -/
def _extract_text_from_token : Token → String
  | Token.heading _ cs => extractTextList cs
  | Token.rawText c => c
  | Token.paragraph cs => extractTextList cs
  | Token.strong cs => extractTextList cs
  | Token.emphasis cs => extractTextList cs

/-- Concatenation of `_extract_text_from_token` over a child list. -/
def extractTextList : List Token → String
  | [] => ""
  | t :: ts => _extract_text_from_token t ++ extractTextList ts
end

/-- Result record of `extract_headings` (extractors.py:91): the dictionary
`{"level": .., "text": .., "raw": ..}` with the optional `"content"` key. -/
structure HeadingRecord where
  level : Nat
  text : String
  raw : String
  content : Option String
deriving Repr, DecidableEq

/-- Loop body of `_get_content_after_heading` (extractors.py:150-153): a token
contributes its stripped extracted text when it is a paragraph or has nonempty
children, and the stripped text is nonempty. -/
def collectPiece (t : Token) : List String :=
  if isParagraph t || hasNonemptyChildren t then
    let text := pyStrip (_extract_text_from_token t)
    if text == "" then [] else [text]
  else []

/-- Scan of `_get_content_after_heading` (extractors.py:136-153) over the
tokens after the heading: stop at the first heading whose level is at most
`heading_level`; every other token contributes via `collectPiece`. -/
def _collect_after (heading_level : Nat) : List Token → List String
  | [] => []
  | t :: ts =>
    match t with
    | Token.heading lvl cs =>
      if lvl ≤ heading_level then []
      else collectPiece (Token.heading lvl cs) ++ _collect_after heading_level ts
    | t => collectPiece t ++ _collect_after heading_level ts

/-- `lines is not None and lines > 0` (extractors.py:162,167). -/
def posOpt : Option Nat → Bool
  | none => false
  | some n => decide (0 < n)

/-- Truncation step of `_get_content_after_heading` (extractors.py:161-171):
keep the first `lines` lines when that limit is positive, else the first
`chars` characters when that limit is positive, else nothing. -/
def applyLimits (lines chars : Option Nat) (full : String) : Option String :=
  if posOpt lines then some (joinNl ((pySplitLines full).take (lines.getD 0)))
  else if posOpt chars then some (full.take (chars.getD 0))
  else none

/-- `_get_content_after_heading` (extractors.py:110-171).  The source is only
ever called with `heading_index` pointing at a `Heading`; for any other index
the scan would compare against an unset `heading_level`, so the embedding
returns `none` there. -/
def _get_content_after_heading (children : List Token) (heading_index : Nat)
    (lines chars : Option Nat) : Option String :=
  if lines.isNone && chars.isNone then none
  else
    match children.get? heading_index with
    | some (Token.heading lvl _) =>
      let parts := _collect_after lvl (children.drop (heading_index + 1))
      if parts.isEmpty then none
      else applyLimits lines chars (joinNl parts)
    | _ => none

/-- Loop body of `extract_headings` (extractors.py:71-104) at the enumerated
top-level token `(i, token)`: headings with `level <= max_level` yield a
record; the content lookup runs when `include_content_for_level` is truthy
and equals the heading's level. -/
def headingRecordAt (children : List Token)
    (include_content_for_level include_content_lines include_content_chars : Option Nat)
    (max_level : Nat) : Nat × Token → Option HeadingRecord
  | (i, Token.heading lvl cs) =>
    if lvl ≤ max_level then
      let heading_text := pyStrip (extractTextList cs)
      let raw_heading := hashRun lvl ++ " " ++ heading_text
      if pyTruthyNat include_content_for_level && (some lvl == include_content_for_level) then
        match _get_content_after_heading children i include_content_lines include_content_chars with
        | some content =>
          some ⟨lvl, heading_text, raw_heading ++ "\n" ++ content, some content⟩
        | none => some ⟨lvl, heading_text, raw_heading, none⟩
      else some ⟨lvl, heading_text, raw_heading, none⟩
    else none
  | (_, _) => none

/-- `extract_headings` (extractors.py:30-107).  The document is given by its
list of top-level children (`document.children`). -/
def extract_headings (document : List Token) (max_level : Nat)
    (include_content_for_level include_content_lines include_content_chars : Option Nat) :
    List HeadingRecord :=
  document.enum.filterMap
    (headingRecordAt document include_content_for_level include_content_lines
      include_content_chars max_level)

/-- An entry `{"level": .., "text": ..}` of the heading stack kept by
`extract_emphasized` (extractors.py:195).  The stack is represented with the
most recent (innermost, Python `stack[-1]`) entry at the HEAD of the list. -/
structure HeadingEntry where
  level : Nat
  text : String
deriving Repr, DecidableEq

/-- Result record of `extract_emphasized` (extractors.py:240): the dictionary
`{"type": .., "text": .., "heading_context": ..}`. -/
structure EmphasisRecord where
  type : String
  text : String
  heading_context : Option String
deriving Repr, DecidableEq

/-- Filter check of `extract_emphasized` (extractors.py:229-235,250-256):
with a truthy filter, some stack entry's lowered text must contain the
lowered filter as a substring; a falsy filter always passes. -/
def _matches_filter (heading_filter : Option String) (heading_stack : List HeadingEntry) :
    Bool :=
  match heading_filter with
  | none => true
  | some f =>
    if f == "" then true
    else heading_stack.any (fun h => pyContains (pyLower h.text) (pyLower f))

mutual
/-- `_process_token` inside `extract_emphasized` (extractors.py:201-267),
with the mutable closure state (heading stack, emitted records) made
explicit: returns the stack after the subtree and the records emitted in the
subtree, in emission order. -/
def _process_token (type : String) (heading_filter : Option String)
    (heading_stack : List HeadingEntry) : Token → List HeadingEntry × List EmphasisRecord
  | Token.heading lvl cs =>
    let heading_text := _extract_text_from_token (Token.heading lvl cs)
    let popped := heading_stack.dropWhile (fun h => decide (h.level ≥ lvl))
    let pushed := HeadingEntry.mk lvl heading_text :: popped
    _process_list type heading_filter pushed cs
  | Token.strong cs =>
    let own :=
      if (type == "all" || type == "bold") && _matches_filter heading_filter heading_stack then
        [EmphasisRecord.mk "bold" (_extract_text_from_token (Token.strong cs))
          (heading_stack.head?.map HeadingEntry.text)]
      else []
    let rest := _process_list type heading_filter heading_stack cs
    (rest.1, own ++ rest.2)
  | Token.emphasis cs =>
    let own :=
      if (type == "all" || type == "italic") && _matches_filter heading_filter heading_stack then
        [EmphasisRecord.mk "italic" (_extract_text_from_token (Token.emphasis cs))
          (heading_stack.head?.map HeadingEntry.text)]
      else []
    let rest := _process_list type heading_filter heading_stack cs
    (rest.1, own ++ rest.2)
  | Token.paragraph cs => _process_list type heading_filter heading_stack cs
  | Token.rawText _ => (heading_stack, [])

/-- Sequential processing of a child list by `_process_token`, threading the
heading stack (the Python closure mutates it in place). -/
def _process_list (type : String) (heading_filter : Option String)
    (heading_stack : List HeadingEntry) : List Token → List HeadingEntry × List EmphasisRecord
  | [] => (heading_stack, [])
  | t :: ts =>
    let r1 := _process_token type heading_filter heading_stack t
    let r2 := _process_list type heading_filter r1.1 ts
    (r2.1, r1.2 ++ r2.2)
end

/-- `extract_emphasized` (extractors.py:174-276): process the top-level
children in order starting from an empty heading stack. -/
def extract_emphasized (document : List Token) (type : String)
    (heading_filter : Option String) : List EmphasisRecord :=
  (_process_list type heading_filter [] document).2

/-- Result record of `find_and_extract` (extractors.py:369-376): the
dictionary `{"match": .., "line_number": .., "context": .., "context_lines": ..}`
(`matched` stands for the `"match"` key, a reserved word in Lean). -/
structure SearchMatch where
  matched : String
  line_number : Nat
  context : String
  context_lines : List String
deriving Repr, DecidableEq

/-- Abstraction of Python's `re` module as consumed by `find_and_extract`:
`compile pattern case_sensitive` either fails with the parser's diagnostic
message (`re.error`) or yields a search function mapping a line to the first
match's substring (`match.group(0)`), or `none` when the line has no match. -/
structure RegexEngine where
  compile : String → Bool → Except String (String → Option String)

/-- Tail of the section-heading pattern `^#+\s+<escaped>\s*$` after the
leading whitespace: the rest of the line must start with the section text
(case-insensitively, `re.escape` makes it literal) followed by whitespace. -/
def matchSecTail (sec rest : List Char) : Bool :=
  (rest.take sec.length).map Char.toLower == sec.map Char.toLower
    && (rest.drop sec.length).all isPySpace

/-- Match of `section_pattern = re.compile(r"^#+\s+" + re.escape(within_section)
+ r"\s*$", re.IGNORECASE)` against `line.strip()` (extractors.py:319-322).
`#` and whitespace are disjoint, so the `#+` run is the maximal one; the
`\s+` run may end anywhere inside the maximal whitespace run (regex
backtracking), hence the disjunction over its length. -/
def sectionHeadingMatch (within_section : String) (line : String) : Bool :=
  let s := (pyStrip line).toList
  let hashes := s.takeWhile (fun c => c == '#')
  let afterHashes := s.dropWhile (fun c => c == '#')
  let ws := afterHashes.takeWhile isPySpace
  !hashes.isEmpty && !ws.isEmpty &&
    (List.range ws.length).any
      (fun k => matchSecTail within_section.toList (afterHashes.drop (k + 1)))

/-- Length of the leading `#` run of a stripped line; Python
`len(stripped) - len(stripped.lstrip("#"))` (extractors.py:326,330). -/
def leadHashCount (s : String) : Nat :=
  (s.toList.takeWhile (fun c => c == '#')).length

/-- Section resolution of `find_and_extract` (extractors.py:313-341): the
first line whose stripped form matches the section-heading pattern opens the
section; it ends at the first later line whose stripped form starts with `#`
at a level less than or equal to the section's, or at the end of the
document.  `none` when no line matches (the code then searches everything). -/
def findSectionBounds (lines : List String) (within_section : String) :
    Option (Nat × Nat) :=
  match lines.findIdx? (fun line => sectionHeadingMatch within_section line) with
  | none => none
  | some i =>
    let heading_level := leadHashCount (pyStrip (lines.getD i ""))
    let section_end :=
      match (lines.drop (i + 1)).findIdx?
          (fun l =>
            let ns := pyStrip l
            ns.startsWith "#" && decide (leadHashCount ns ≤ heading_level)) with
      | some j => i + 1 + j
      | none => lines.length
    some (i, section_end)

/-- Python `"\n".join(context_lines).rstrip("\n")` (extractors.py:363). -/
def rstripNl (s : String) : String :=
  String.mk ((s.toList.reverse.dropWhile (fun c => c == '\n')).reverse)

/-- Per-line body of the scan loop of `find_and_extract`
(extractors.py:350-376) at the enumerated line `(i, line)`. -/
def searchLineAt (lines : List String) (lines_before lines_after : Nat)
    (within_section : Option String) (bounds : Option (Nat × Nat))
    (search : String → Option String) : Nat × String → Option SearchMatch
  | (i, line) =>
    let skip := pyTruthyStr within_section &&
      (match bounds with
       | some (section_start, section_end) =>
         decide (i < section_start) || decide (section_end ≤ i)
       | none => false)
    if skip then none
    else
      match search line with
      | some matched_text =>
        let start_idx := i - lines_before
        let end_idx := min lines.length (i + 1 + lines_after)
        let context_lines := (lines.drop start_idx).take (end_idx - start_idx)
        some (SearchMatch.mk matched_text (i + 1) (rstripNl (joinNl context_lines))
          context_lines)
      | none => none

/-- `find_and_extract` (extractors.py:279-379), over an abstract `RegexEngine`
standing for Python's `re` module.  `i - lines_before` is `Nat` truncated
subtraction, which is Python's `max(0, i - lines_before)`. -/
def find_and_extract (engine : RegexEngine) (content : String) (pattern : String)
    (lines_before lines_after : Nat) (case_sensitive : Bool)
    (within_section : Option String) : Except String (List SearchMatch) :=
  let lines := pySplitLines content
  let bounds :=
    if pyTruthyStr within_section then
      findSectionBounds lines (within_section.getD "")
    else none
  match engine.compile pattern case_sensitive with
  | Except.error e =>
    Except.error ("Invalid regex pattern: " ++ pattern ++ ". Error: " ++ e)
  | Except.ok search =>
    Except.ok (lines.enum.filterMap
      (searchLineAt lines lines_before lines_after within_section bounds search))

/-- Minimal JSON value tree; `format_json_output` builds such an object and
serialization (`json.dumps`) is outside the verified core. -/
inductive JsonValue where
  | jnull
  | jbool (b : Bool)
  | jnum (n : Nat)
  | jstr (s : String)
  | jarr (items : List JsonValue)
  | jobj (fields : List (String × JsonValue))
deriving Repr

/-- `format_json_output` (utils.py:117-140): the output object, with fields
in the source's construction order. -/
def format_json_output (results : List JsonValue) (operation : String)
    (file_path : String) (parameters : JsonValue) : JsonValue :=
  JsonValue.jobj
    [ ("operation", JsonValue.jstr operation)
    , ("file", JsonValue.jstr file_path)
    , ("parameters", parameters)
    , ("results", JsonValue.jarr results)
    , ("count", JsonValue.jnum results.length)
    , ("status", JsonValue.jstr (if results.isEmpty then "no_matches" else "success")) ]

/-- Field lookup in a JSON object (first binding wins, as in a Python dict
built with distinct keys). -/
def jsonGet (v : JsonValue) (key : String) : Option JsonValue :=
  match v with
  | JsonValue.jobj fields => fields.lookup key
  | _ => none

/-- The spec's HeadingStack invariant: levels strictly increasing from the
bottom to the top of the stack.  The stack's head is its top, so along the
list each entry's level exceeds the next one's. -/
def strictStackB : List HeadingEntry → Bool
  | [] => true
  | [_] => true
  | a :: b :: rest => decide (b.level < a.level) && strictStackB (b :: rest)

/-- Modelled from claim C2's words: the scan collects text only from
paragraph-like (non-heading) nodes; deeper headings are scanned past but
contribute nothing. -/
def claimCollectAfter (heading_level : Nat) (rest : List Token) : List String :=
  (rest.takeWhile (fun t =>
      match t with
      | Token.heading lvl _ => decide (heading_level < lvl)
      | _ => true)).filterMap
    (fun t =>
      match t with
      | Token.heading _ _ => none
      | t =>
        if isParagraph t || hasNonemptyChildren t then
          let text := pyStrip (_extract_text_from_token t)
          if text == "" then none else some text
        else none)

/-- Modelled from claim C2's words: `_get_content_after_heading` with the
claim's collection rule (`claimCollectAfter`) in place of the code's. -/
def claimContentAfterHeading (children : List Token) (heading_index : Nat)
    (lines chars : Option Nat) : Option String :=
  if lines.isNone && chars.isNone then none
  else
    match children.get? heading_index with
    | some (Token.heading lvl _) =>
      let parts := claimCollectAfter lvl (children.drop (heading_index + 1))
      if parts.isEmpty then none
      else applyLimits lines chars (joinNl parts)
    | _ => none

/-- Document `# A` / `## B` / paragraph `p`, exercising a deeper heading
between a heading and its following paragraph. -/
def exDocC2 : List Token :=
  [ Token.heading 1 [Token.rawText "A"]
  , Token.heading 2 [Token.rawText "B"]
  , Token.paragraph [Token.rawText "p"] ]

/-- Document `# Title` / `## Sub` / paragraph with a bold span, the spec's
end-to-end scenario. -/
def exDocEmph : List Token :=
  [ Token.heading 1 [Token.rawText "Title"]
  , Token.heading 2 [Token.rawText "Sub"]
  , Token.paragraph
      [Token.rawText "Bold ", Token.strong [Token.rawText "word"], Token.rawText " here."] ]

/-- A regex engine whose compilation always fails, exhibiting the behaviour
of `re.compile` on a syntactically invalid pattern. -/
def failEngine : RegexEngine :=
  RegexEngine.mk (fun _ _ => Except.error "missing ), unterminated subpattern")

/-- A regex engine that compiles every pattern to a literal substring search
(the first match of a literal pattern is the pattern itself). -/
def litEngine : RegexEngine :=
  RegexEngine.mk (fun pattern _ =>
    Except.ok (fun line => if pyContains line pattern then some pattern else none))

/-- C9: for every result list, the JSON formatter's object carries the input
list itself (order preserved) under `results`, its length under `count`, and
a `status` of `"success"` for a non-empty list and `"no_matches"` for an
empty one. -/
theorem spec_C9 (results : List JsonValue) (operation file_path : String)
    (parameters : JsonValue) :
    jsonGet (format_json_output results operation file_path parameters) "results"
        = some (JsonValue.jarr results)
    ∧ jsonGet (format_json_output results operation file_path parameters) "count"
        = some (JsonValue.jnum results.length)
    ∧ jsonGet (format_json_output results operation file_path parameters) "status"
        = some (JsonValue.jstr
            (match results with
             | [] => "no_matches"
             | _ :: _ => "success")) := by
  refine ⟨rfl, rfl, ?_⟩
  cases results with
  | nil => rfl
  | cons r rs => rfl

/-- C4: when regex compilation fails, `find_and_extract` fails with a message
carrying the offending pattern and the underlying diagnostic, and returns no
match list at all. -/
theorem spec_C4 (engine : RegexEngine) (content pattern : String)
    (lines_before lines_after : Nat) (case_sensitive : Bool)
    (within_section : Option String) (e : String)
    (h : engine.compile pattern case_sensitive = Except.error e) :
    find_and_extract engine content pattern lines_before lines_after case_sensitive
        within_section
      = Except.error ("Invalid regex pattern: " ++ pattern ++ ". Error: " ++ e)
    ∧ ∀ ms : List SearchMatch,
        find_and_extract engine content pattern lines_before lines_after case_sensitive
            within_section ≠ Except.ok ms := by
  have hmain :
      find_and_extract engine content pattern lines_before lines_after case_sensitive
          within_section
        = Except.error ("Invalid regex pattern: " ++ pattern ++ ". Error: " ++ e) := by
    rw [find_and_extract, h]
  exact ⟨hmain, fun ms hok => by rw [hmain] at hok; exact Except.noConfusion hok⟩

/-- Witness for C4 at the spec's example pattern, via an engine whose
compilation fails. -/
theorem spec_C4_witness :
    failEngine.compile "[invalid(regex" false
        = Except.error "missing ), unterminated subpattern"
    ∧ find_and_extract failEngine "# Test\nSome content" "[invalid(regex" 0 0 false none
        = Except.error
            "Invalid regex pattern: [invalid(regex. Error: missing ), unterminated subpattern" :=
  ⟨rfl,
    (spec_C4 failEngine "# Test\nSome content" "[invalid(regex" 0 0 false none
      "missing ), unterminated subpattern" rfl).1⟩

mutual
/-- With a kind outside all/bold/italic, processing a token emits nothing. -/
theorem processToken_other_kind (type : String) (heading_filter : Option String)
    (h1 : type ≠ "all") (h2 : type ≠ "bold") (h3 : type ≠ "italic") :
    ∀ (heading_stack : List HeadingEntry) (t : Token),
      (_process_token type heading_filter heading_stack t).2 = []
  | stack, Token.heading lvl cs => by
    simp only [_process_token]
    exact processList_other_kind type heading_filter h1 h2 h3 _ cs
  | stack, Token.strong cs => by
    have hb : (type == "all" || type == "bold") = false := by
      simp [h1, h2]
    simp only [_process_token, hb, Bool.false_and, if_false, List.nil_append]
    exact processList_other_kind type heading_filter h1 h2 h3 stack cs
  | stack, Token.emphasis cs => by
    have hb : (type == "all" || type == "italic") = false := by
      simp [h1, h3]
    simp only [_process_token, hb, Bool.false_and, if_false, List.nil_append]
    exact processList_other_kind type heading_filter h1 h2 h3 stack cs
  | stack, Token.paragraph cs => by
    simp only [_process_token]
    exact processList_other_kind type heading_filter h1 h2 h3 stack cs
  | stack, Token.rawText c => rfl

/-- With a kind outside all/bold/italic, processing a token list emits
nothing. -/
theorem processList_other_kind (type : String) (heading_filter : Option String)
    (h1 : type ≠ "all") (h2 : type ≠ "bold") (h3 : type ≠ "italic") :
    ∀ (heading_stack : List HeadingEntry) (ts : List Token),
      (_process_list type heading_filter heading_stack ts).2 = []
  | stack, [] => rfl
  | stack, t :: ts => by
    simp only [_process_list]
    rw [processToken_other_kind type heading_filter h1 h2 h3 stack t,
      processList_other_kind type heading_filter h1 h2 h3 _ ts]
    rfl
end

/-- C10: an emphasis-kind value outside `all`/`bold`/`italic` (such as
`underline`) satisfies neither kind check, so `extract_emphasized` returns
the empty list for every document and heading filter. -/
theorem spec_C10 (document : List Token) (heading_filter : Option String)
    (type : String) (h1 : type ≠ "all") (h2 : type ≠ "bold") (h3 : type ≠ "italic") :
    extract_emphasized document type heading_filter = [] :=
  processList_other_kind type heading_filter h1 h2 h3 [] document

/-- Witness for C10 on the scenario document with kind `underline`. -/
theorem spec_C10_witness :
    (("underline" : String) ≠ "all" ∧ ("underline" : String) ≠ "bold"
      ∧ ("underline" : String) ≠ "italic")
    ∧ extract_emphasized exDocEmph "underline" none = [] :=
  ⟨⟨by decide, by decide, by decide⟩,
    spec_C10 exDocEmph none "underline" (by decide) (by decide) (by decide)⟩

/-- The strict-stack invariant restricts to the tail. -/
theorem strictStackB_tail (a : HeadingEntry) (l : List HeadingEntry)
    (h : strictStackB (a :: l) = true) : strictStackB l = true := by
  cases l with
  | nil => rfl
  | cons b rest =>
    simp only [strictStackB, Bool.and_eq_true] at h
    exact h.2

/-- The heading step of `extract_emphasized` — pop entries with level at
least the new heading's, then push the new entry — preserves the
strict-stack invariant. -/
theorem strict_push (lvl : Nat) (text : String) :
    ∀ stack : List HeadingEntry, strictStackB stack = true →
      strictStackB (HeadingEntry.mk lvl text
        :: stack.dropWhile (fun h => decide (h.level ≥ lvl))) = true := by
  intro stack
  induction stack with
  | nil => intro _; rfl
  | cons h rest ih =>
    intro hs
    rw [List.dropWhile_cons]
    by_cases hcase : h.level ≥ lvl
    · rw [if_pos (decide_eq_true hcase)]
      exact ih (strictStackB_tail h rest hs)
    · rw [if_neg (by simp [hcase])]
      simp only [strictStackB, Bool.and_eq_true]
      exact ⟨decide_eq_true (Nat.lt_of_not_le hcase), hs⟩

mutual
/-- Processing any token preserves the strict-stack invariant. -/
theorem processToken_strict (type : String) (heading_filter : Option String) :
    ∀ (t : Token) (heading_stack : List HeadingEntry),
      strictStackB heading_stack = true →
      strictStackB (_process_token type heading_filter heading_stack t).1 = true
  | Token.heading lvl cs, stack, h => by
    simp only [_process_token]
    exact processList_strict type heading_filter cs _ (strict_push lvl _ stack h)
  | Token.strong cs, stack, h => by
    simp only [_process_token]
    exact processList_strict type heading_filter cs stack h
  | Token.emphasis cs, stack, h => by
    simp only [_process_token]
    exact processList_strict type heading_filter cs stack h
  | Token.paragraph cs, stack, h => by
    simp only [_process_token]
    exact processList_strict type heading_filter cs stack h
  | Token.rawText _, stack, h => h

/-- Processing a token list preserves the strict-stack invariant. -/
theorem processList_strict (type : String) (heading_filter : Option String) :
    ∀ (ts : List Token) (heading_stack : List HeadingEntry),
      strictStackB heading_stack = true →
      strictStackB (_process_list type heading_filter heading_stack ts).1 = true
  | [], stack, h => h
  | t :: ts, stack, h => by
    simp only [_process_list]
    exact processList_strict type heading_filter ts _
      (processToken_strict type heading_filter t stack h)
end

/-- C3: throughout every run of `extract_emphasized` the heading stack has
strictly increasing levels from bottom to top: the heading step (pop all
entries with level at least the new heading's, push the new entry) preserves
the invariant, and so does processing any token or token list — hence every
intermediate stack of a run, which arises from the empty stack by such
steps, satisfies it. -/
theorem spec_C3 (type : String) (heading_filter : Option String)
    (heading_stack : List HeadingEntry) (h : strictStackB heading_stack = true) :
    (∀ (lvl : Nat) (text : String),
      strictStackB (HeadingEntry.mk lvl text
        :: heading_stack.dropWhile (fun e => decide (e.level ≥ lvl))) = true)
    ∧ (∀ t : Token,
        strictStackB (_process_token type heading_filter heading_stack t).1 = true)
    ∧ (∀ ts : List Token,
        strictStackB (_process_list type heading_filter heading_stack ts).1 = true) :=
  ⟨fun lvl text => strict_push lvl text heading_stack h,
   fun t => processToken_strict type heading_filter t heading_stack h,
   fun ts => processList_strict type heading_filter ts heading_stack h⟩

/-- Witness for C3: a same-level heading arriving over a two-entry stack. -/
theorem spec_C3_witness :
    strictStackB [HeadingEntry.mk 2 "Sub", HeadingEntry.mk 1 "Title"] = true
    ∧ strictStackB (_process_token "all" none
        [HeadingEntry.mk 2 "Sub", HeadingEntry.mk 1 "Title"]
        (Token.heading 2 [Token.rawText "Sub2"])).1 = true :=
  ⟨by decide,
    (spec_C3 "all" none [HeadingEntry.mk 2 "Sub", HeadingEntry.mk 1 "Title"]
      (by decide)).2.1 (Token.heading 2 [Token.rawText "Sub2"])⟩

/-- The code's filter check agrees with the spec's wording: pass when the
filter is unset (Python-falsy: absent or empty), or when the lowered filter
occurs in the lowered text of SOME entry of the current stack. -/
theorem matches_filter_iff (heading_filter : Option String)
    (heading_stack : List HeadingEntry) :
    _matches_filter heading_filter heading_stack = true
      ↔ ((heading_filter = none ∨ heading_filter = some "")
          ∨ ∃ h ∈ heading_stack,
              pyContains (pyLower h.text) (pyLower (heading_filter.getD "")) = true) := by
  cases heading_filter with
  | none => simp [_matches_filter]
  | some f =>
    by_cases hf : f = ""
    · subst hf
      simp [_matches_filter]
    · simp only [_matches_filter, beq_iff_eq, if_neg hf, List.any_eq_true,
        Option.getD_some]
      constructor
      · intro ⟨h, hmem, hc⟩
        exact Or.inr ⟨h, hmem, hc⟩
      · intro hor
        rcases hor with (hbad | hbad) | ⟨h, hmem, hc⟩
        · exact absurd hbad (by simp)
        · exact absurd hbad (by simp [hf])
        · exact ⟨h, hmem, hc⟩

/-- C1: at the moment the pre-order traversal of `extract_emphasized` visits
a bold (resp. italic) emphasis node with the current heading stack, a record
is emitted if and only if the kind filter is `all` or matches the node's
kind, and the heading filter is unset (Python-falsy) or its substring occurs
case-insensitively in the text of some entry of the stack (not only the
top); the emitted record's `heading_context` is the text of the topmost
(innermost) stack entry, or absent when the stack is empty.  The node's own
emission precedes its children's. -/
theorem spec_C1 (type : String) (heading_filter : Option String)
    (heading_stack : List HeadingEntry) (cs : List Token) :
    (_process_token type heading_filter heading_stack (Token.strong cs)).2
      = (if (type = "all" ∨ type = "bold")
            ∧ ((heading_filter = none ∨ heading_filter = some "")
               ∨ ∃ h ∈ heading_stack,
                   pyContains (pyLower h.text) (pyLower (heading_filter.getD "")) = true)
         then [EmphasisRecord.mk "bold"
                (_extract_text_from_token (Token.strong cs))
                (heading_stack.head?.map HeadingEntry.text)]
         else [])
        ++ (_process_list type heading_filter heading_stack cs).2
    ∧ (_process_token type heading_filter heading_stack (Token.emphasis cs)).2
      = (if (type = "all" ∨ type = "italic")
            ∧ ((heading_filter = none ∨ heading_filter = some "")
               ∨ ∃ h ∈ heading_stack,
                   pyContains (pyLower h.text) (pyLower (heading_filter.getD "")) = true)
         then [EmphasisRecord.mk "italic"
                (_extract_text_from_token (Token.emphasis cs))
                (heading_stack.head?.map HeadingEntry.text)]
         else [])
        ++ (_process_list type heading_filter heading_stack cs).2 := by
  constructor
  · simp only [_process_token]
    congr 1
    refine if_congr ?_ rfl rfl
    simp only [Bool.and_eq_true, Bool.or_eq_true, beq_iff_eq,
      matches_filter_iff heading_filter heading_stack]
  · simp only [_process_token]
    congr 1
    refine if_congr ?_ rfl rfl
    simp only [Bool.and_eq_true, Bool.or_eq_true, beq_iff_eq,
      matches_filter_iff heading_filter heading_stack]

/-- Document-order projection of the headings a document's top level holds
up to a given level: the (level, stripped text) keys in source order. -/
def headingKey (max_level : Nat) : Token → Option (Nat × String)
  | Token.heading lvl cs =>
    if lvl ≤ max_level then some (lvl, pyStrip (extractTextList cs)) else none
  | _ => none

/-- An emitted heading record comes from a top-level heading within the level
bound, and its `raw` is the bare reconstructed heading line whenever no
content is attached. -/
theorem headingRecordAt_shape (children : List Token) (il ll lc : Option Nat)
    (L i : Nat) (t : Token) (r : HeadingRecord)
    (h : headingRecordAt children il ll lc L (i, t) = some r) :
    r.level ≤ L ∧ (r.content = none → r.raw = hashRun r.level ++ " " ++ r.text) := by
  cases t with
  | heading lvl cs =>
    by_cases hL : lvl ≤ L
    · simp only [headingRecordAt, if_pos hL] at h
      split at h
      · split at h
        all_goals
          injection h with h
          subst h
          refine ⟨hL, ?_⟩
          intro hc
          first
          | rfl
          | exact Option.noConfusion hc
      · injection h with h
        subst h
        exact ⟨hL, fun _ => rfl⟩
    · simp only [headingRecordAt, if_neg hL] at h
      exact Option.noConfusion h
  | paragraph cs => exact Option.noConfusion h
  | strong cs => exact Option.noConfusion h
  | emphasis cs => exact Option.noConfusion h
  | rawText c => exact Option.noConfusion h

/-- Projecting a heading record to its (level, text) key forgets the content
branch entirely. -/
theorem headingRecordAt_proj (children : List Token) (il ll lc : Option Nat)
    (L i : Nat) (t : Token) :
    (headingRecordAt children il ll lc L (i, t)).map (fun r => (r.level, r.text))
      = headingKey L t := by
  cases t with
  | heading lvl cs =>
    by_cases hL : lvl ≤ L
    · simp only [headingRecordAt, headingKey, if_pos hL]
      split
      · split <;> rfl
      · rfl
    · simp only [headingRecordAt, headingKey, if_neg hL, Option.map_none']
  | paragraph cs => rfl
  | strong cs => rfl
  | emphasis cs => rfl
  | rawText c => rfl

/-- Mapping a projection over an enumerated filterMap collapses to a plain
filterMap when the projection is index-independent. -/
theorem filterMap_enumFrom_proj {α β γ : Type} (f : Nat × α → Option β)
    (proj : β → γ) (g : α → Option γ)
    (hfg : ∀ (i : Nat) (a : α), (f (i, a)).map proj = g a) :
    ∀ (l : List α) (n : Nat),
      ((List.enumFrom n l).filterMap f).map proj = l.filterMap g := by
  intro l
  induction l with
  | nil => intro n; rfl
  | cons a l ih =>
    intro n
    simp only [List.enumFrom_cons, List.filterMap_cons]
    have h := hfg n a
    cases hfa : f (n, a) with
    | none =>
      rw [hfa] at h
      simp only [Option.map_none'] at h
      rw [← h]
      exact ih (n + 1)
    | some b =>
      rw [hfa] at h
      simp only [Option.map_some'] at h
      rw [← h]
      simp only [List.map_cons, ih (n + 1)]

/-- C7: `extract_headings` returns only records with level at most
`max_level`, taken from the top-level children only and in document order
(their (level, text) keys are exactly the in-order headings within the
bound), and a record's `raw` is `"#" * level ++ " " ++ text` whenever no
content is attached. -/
theorem spec_C7 (document : List Token) (max_level : Nat) (il ll lc : Option Nat) :
    (∀ r ∈ extract_headings document max_level il ll lc,
        r.level ≤ max_level
        ∧ (r.content = none → r.raw = hashRun r.level ++ " " ++ r.text))
    ∧ (extract_headings document max_level il ll lc).map (fun r => (r.level, r.text))
        = document.filterMap (headingKey max_level) := by
  constructor
  · intro r hr
    rw [extract_headings] at hr
    obtain ⟨⟨i, t⟩, _, hsome⟩ := List.mem_filterMap.mp hr
    exact headingRecordAt_shape document il ll lc max_level i t r hsome
  · rw [extract_headings]
    rw [show document.enum = List.enumFrom 0 document from rfl]
    exact filterMap_enumFrom_proj _ _ _
      (fun i a => headingRecordAt_proj document il ll lc max_level i a) document 0

/-- Witness for C7 on the scenario document at max level 2. -/
theorem spec_C7_witness :
    HeadingRecord.mk 1 "Title" "# Title" none ∈ extract_headings exDocEmph 2 none none none
    ∧ ((HeadingRecord.mk 1 "Title" "# Title" none).level ≤ 2
       ∧ ((HeadingRecord.mk 1 "Title" "# Title" none).content = none →
           (HeadingRecord.mk 1 "Title" "# Title" none).raw
             = hashRun 1 ++ " " ++ (HeadingRecord.mk 1 "Title" "# Title" none).text)) :=
  ⟨by decide,
    (spec_C7 exDocEmph 2 none none none).1 (HeadingRecord.mk 1 "Title" "# Title" none)
      (by decide)⟩

/-- Raising the level bound keeps every previously emitted heading record
emitted (someness is monotone in `max_level`). -/
theorem headingRecordAt_isSome_mono (children : List Token) (il ll lc : Option Nat)
    (L L' i : Nat) (t : Token) (hLL : L ≤ L')
    (h : (headingRecordAt children il ll lc L (i, t)).isSome = true) :
    (headingRecordAt children il ll lc L' (i, t)).isSome = true := by
  cases t with
  | heading lvl cs =>
    by_cases hL : lvl ≤ L
    · simp only [headingRecordAt, if_pos (Nat.le_trans hL hLL)]
      split
      · split <;> rfl
      · rfl
    · simp only [headingRecordAt, if_neg hL] at h
      exact Bool.noConfusion h
  | paragraph cs => exact Bool.noConfusion h
  | strong cs => exact Bool.noConfusion h
  | emphasis cs => exact Bool.noConfusion h
  | rawText c => exact Bool.noConfusion h

/-- A filterMap keeps at most as many elements as one whose function is
defined wherever the first is. -/
theorem length_filterMap_mono {α β : Type} (f g : α → Option β)
    (h : ∀ a, (f a).isSome = true → (g a).isSome = true) :
    ∀ l : List α, (l.filterMap f).length ≤ (l.filterMap g).length := by
  intro l
  induction l with
  | nil => exact Nat.le_refl 0
  | cons a l ih =>
    rw [List.filterMap_cons, List.filterMap_cons]
    cases hfa : f a with
    | none =>
      cases hga : g a with
      | none => exact ih
      | some b =>
        exact Nat.le_trans ih (by simp)
    | some b =>
      have hg := h a (by rw [hfa]; rfl)
      cases hga : g a with
      | none => rw [hga] at hg; exact Bool.noConfusion hg
      | some c => simpa using ih

/-- C8: for 1 ≤ L < 6 the number of records from `extract_headings` at
`max_level = 6` is at least the number at `max_level = L`. -/
theorem spec_C8 (document : List Token) (L : Nat) (il ll lc : Option Nat)
    (_h1 : 1 ≤ L) (h2 : L < 6) :
    (extract_headings document L il ll lc).length
      ≤ (extract_headings document 6 il ll lc).length := by
  rw [extract_headings, extract_headings]
  refine length_filterMap_mono _ _ ?_ document.enum
  intro p hp
  cases p with
  | mk i t =>
    exact headingRecordAt_isSome_mono document il ll lc L 6 i t (Nat.le_of_lt h2) hp

/-- Witness for C8 on the scenario document at L = 2. -/
theorem spec_C8_witness :
    (1 ≤ 2 ∧ 2 < 6)
    ∧ (extract_headings exDocEmph 2 none none none).length
        ≤ (extract_headings exDocEmph 6 none none none).length :=
  ⟨⟨by decide, by decide⟩, spec_C8 exDocEmph 2 none none none (by decide) (by decide)⟩

/-- The scan of `_get_content_after_heading` equals: take the scanned run up
to (excluding) the first heading of level at most `heading_level`, and
collect each scanned node's piece — deeper headings included. -/
theorem collect_after_eq (heading_level : Nat) :
    ∀ rest : List Token,
      _collect_after heading_level rest
        = (rest.takeWhile (fun t =>
            match t with
            | Token.heading lvl _ => decide (heading_level < lvl)
            | _ => true)).flatMap collectPiece := by
  intro rest
  induction rest with
  | nil => rfl
  | cons t ts ih =>
    cases t with
    | heading lvl cs =>
      by_cases hlvl : lvl ≤ heading_level
      · rw [_collect_after, if_pos hlvl, List.takeWhile_cons,
          if_neg (by simp [Nat.not_lt_of_le hlvl])]
        rfl
      · rw [_collect_after, if_neg hlvl, List.takeWhile_cons,
          if_pos (by simp [Nat.lt_of_not_le hlvl]), List.flatMap_cons, ih]
    | paragraph cs =>
      rw [show _collect_after heading_level (Token.paragraph cs :: ts)
            = collectPiece (Token.paragraph cs) ++ _collect_after heading_level ts from rfl,
        List.takeWhile_cons, if_pos rfl, List.flatMap_cons, ih]
    | strong cs =>
      rw [show _collect_after heading_level (Token.strong cs :: ts)
            = collectPiece (Token.strong cs) ++ _collect_after heading_level ts from rfl,
        List.takeWhile_cons, if_pos rfl, List.flatMap_cons, ih]
    | emphasis cs =>
      rw [show _collect_after heading_level (Token.emphasis cs :: ts)
            = collectPiece (Token.emphasis cs) ++ _collect_after heading_level ts from rfl,
        List.takeWhile_cons, if_pos rfl, List.flatMap_cons, ih]
    | rawText c =>
      rw [show _collect_after heading_level (Token.rawText c :: ts)
            = collectPiece (Token.rawText c) ++ _collect_after heading_level ts from rfl,
        List.takeWhile_cons, if_pos rfl, List.flatMap_cons, ih]

/-- C2 (amended): the content attached after a heading is obtained by
scanning forward through the subsequent top-level siblings, stopping at the
first subsequent heading whose level is at most the current heading's level
(deeper headings do not terminate collection), collecting the stripped
extractable text of every scanned node that is a paragraph or has nonempty
children — deeper headings included, their heading text is collected as
content — joining the pieces with newline, and applying the lines/chars
truncation. -/
theorem spec_C2 (children : List Token) (i lvl : Nat) (cs : List Token)
    (ll lc : Option Nat) (h : children.get? i = some (Token.heading lvl cs)) :
    _get_content_after_heading children i ll lc
      = (if ll.isNone && lc.isNone then none
         else
           let parts := ((children.drop (i + 1)).takeWhile (fun t =>
             match t with
             | Token.heading l _ => decide (lvl < l)
             | _ => true)).flatMap collectPiece
           if parts.isEmpty then none
           else applyLimits ll lc (joinNl parts)) := by
  simp only [_get_content_after_heading, h]
  by_cases hnone : (ll.isNone && lc.isNone) = true
  · rw [if_pos hnone, if_pos hnone]
  · rw [if_neg hnone, if_neg hnone]
    rw [collect_after_eq]

/-- Witness for the amended C2 on the two-heading document. -/
theorem spec_C2_witness :
    exDocC2.get? 0 = some (Token.heading 1 [Token.rawText "A"])
    ∧ _get_content_after_heading exDocC2 0 (some 10) none
        = (if (some 10 : Option Nat).isNone && (none : Option Nat).isNone then none
           else
             let parts := ((exDocC2.drop 1).takeWhile (fun t =>
               match t with
               | Token.heading l _ => decide (1 < l)
               | _ => true)).flatMap collectPiece
             if parts.isEmpty then none
             else applyLimits (some 10) none (joinNl parts)) :=
  ⟨rfl, spec_C2 exDocC2 0 1 [Token.rawText "A"] (some 10) none rfl⟩

/-- Counterexample to C2 as stated: on `# A` / `## B` / paragraph `p`, the
code attaches `"B\np"` — the deeper heading's text `B` is collected, because
a heading token has nonempty children — while the claim's collection rule
(non-heading nodes only) predicts `"p"`. -/
theorem spec_C2_cex :
    _get_content_after_heading exDocC2 0 (some 10) none = some "B\np"
    ∧ claimContentAfterHeading exDocC2 0 (some 10) none = some "p"
    ∧ (some "B\np" : Option String) ≠ some "p" :=
  ⟨by decide, by decide, by decide⟩

/-- With no resolved section bounds, the scan loop body ignores
`within_section` entirely. -/
theorem searchLineAt_bounds_none (lines : List String) (lines_before lines_after : Nat)
    (within_section : Option String) (search : String → Option String) (p : Nat × String) :
    searchLineAt lines lines_before lines_after within_section none search p
      = searchLineAt lines lines_before lines_after none none search p := by
  cases p with
  | mk i line => simp only [searchLineAt, Bool.and_false]

/-- C5: when `within_section` is given but no line matches the
section-heading pattern, `find_and_extract` searches the whole document and
returns exactly what the same call without `within_section` returns. -/
theorem spec_C5 (engine : RegexEngine) (content pattern : String)
    (lines_before lines_after : Nat) (case_sensitive : Bool) (within_section : String)
    (h : ∀ line ∈ pySplitLines content,
        sectionHeadingMatch within_section line = false) :
    find_and_extract engine content pattern lines_before lines_after case_sensitive
        (some within_section)
      = find_and_extract engine content pattern lines_before lines_after case_sensitive
          none := by
  have hbounds :
      (if pyTruthyStr (some within_section) then
        findSectionBounds (pySplitLines content) ((some within_section).getD "")
      else none) = none := by
    by_cases hws : within_section = ""
    · rw [if_neg]
      rw [hws]
      simp [pyTruthyStr]
    · rw [if_pos (by simp [pyTruthyStr, hws])]
      have hidx : (pySplitLines content).findIdx?
          (fun line => sectionHeadingMatch ((some within_section).getD "") line) = none :=
        List.findIdx?_eq_none_iff.mpr (by simpa using h)
      rw [findSectionBounds, hidx]
  have hb2 : (if pyTruthyStr (none : Option String) then
      findSectionBounds (pySplitLines content) ((none : Option String).getD "")
    else none) = none := rfl
  cases hcomp : engine.compile pattern case_sensitive with
  | error e => simp only [find_and_extract, hcomp]
  | ok search =>
    simp only [find_and_extract, hcomp, hbounds, hb2]
    congr 1
    exact List.filterMap_congr
      (fun p _ => searchLineAt_bounds_none (pySplitLines content) lines_before lines_after
        (some within_section) search p)

/-- Witness for C5: a section name occurring nowhere in the document. -/
theorem spec_C5_witness :
    (∀ line ∈ pySplitLines "a\nb", sectionHeadingMatch "zzz" line = false)
    ∧ find_and_extract litEngine "a\nb" "a" 0 0 false (some "zzz")
        = find_and_extract litEngine "a\nb" "a" 0 0 false none :=
  ⟨by decide, spec_C5 litEngine "a\nb" "a" 0 0 false "zzz" (by decide)⟩

/-- A successful scan-loop body yields the first-match text, the 1-indexed
line number, and the before/after context slice of the scanned line. -/
theorem searchLineAt_eq_some (lines : List String) (lines_before lines_after : Nat)
    (within_section : Option String) (bounds : Option (Nat × Nat))
    (search : String → Option String) (i : Nat) (line : String) (r : SearchMatch)
    (h : searchLineAt lines lines_before lines_after within_section bounds search (i, line)
      = some r) :
    search line = some r.matched
    ∧ r.line_number = i + 1
    ∧ r.context_lines
        = (lines.drop (i - lines_before)).take
            (min lines.length (i + 1 + lines_after) - (i - lines_before)) := by
  simp only [searchLineAt] at h
  split at h
  · exact Option.noConfusion h
  · cases hsearch : search line with
    | none => rw [hsearch] at h; exact Option.noConfusion h
    | some m =>
      rw [hsearch] at h
      injection h with h
      subst h
      exact ⟨rfl, rfl, rfl⟩

/-- C6: every match record of `find_and_extract` comes from a 0-indexed line
`i`: its `line_number` is `i + 1`, its `matched` text is the engine's first
match on that line, its `context_lines` are the contiguous slice
`lines[max(0, i - lines_before) : min(N, i + 1 + lines_after)]`, and with
zero context the slice is exactly the matched line. -/
theorem spec_C6 (engine : RegexEngine) (content pattern : String)
    (lines_before lines_after : Nat) (case_sensitive : Bool)
    (within_section : Option String) (search : String → Option String)
    (res : List SearchMatch) (r : SearchMatch)
    (hc : engine.compile pattern case_sensitive = Except.ok search)
    (hres : find_and_extract engine content pattern lines_before lines_after case_sensitive
        within_section = Except.ok res)
    (hr : r ∈ res) :
    ∃ i : Nat, i < (pySplitLines content).length
      ∧ r.line_number = i + 1
      ∧ search ((pySplitLines content).getD i "") = some r.matched
      ∧ r.context_lines
          = ((pySplitLines content).drop (i - lines_before)).take
              (min (pySplitLines content).length (i + 1 + lines_after) - (i - lines_before))
      ∧ (lines_before = 0 → lines_after = 0 →
          r.context_lines = [(pySplitLines content).getD i ""]) := by
  simp only [find_and_extract, hc, Except.ok.injEq] at hres
  subst hres
  obtain ⟨⟨i, line⟩, hmem, hsome⟩ := List.mem_filterMap.mp hr
  have hline : (pySplitLines content)[i]? = some line :=
    List.mem_enum_iff_getElem?.mp hmem
  have hi : i < (pySplitLines content).length := (List.getElem?_eq_some.mp hline).1
  have hgetD : (pySplitLines content).getD i "" = line := by
    rw [List.getD_eq_getElem?_getD, hline]
    rfl
  obtain ⟨hmatch, hnum, hctx⟩ :=
    searchLineAt_eq_some (pySplitLines content) lines_before lines_after within_section _
      search i line r hsome
  refine ⟨i, hi, hnum, by rw [hgetD]; exact hmatch, hctx, ?_⟩
  intro hb ha
  subst hb; subst ha
  have hmin : min (pySplitLines content).length (i + 1 + 0) = i + 1 :=
    Nat.min_eq_right (Nat.succ_le_of_lt (by simpa using hi))
  rw [hctx]
  simp only [Nat.sub_zero, Nat.add_zero] at hmin ⊢
  rw [hmin, Nat.add_sub_cancel_left, List.drop_eq_getElem_cons hi]
  rw [List.take_succ_cons, List.take_zero]
  rw [List.getD_eq_getElem?_getD, List.getElem?_eq_getElem hi]
  rfl

/-- Witness for C6: a literal search over `"a\nx"` matching on line 2 with
zero context. -/
theorem spec_C6_witness :
    litEngine.compile "x" false
        = Except.ok (fun line => if pyContains line "x" then some "x" else none)
    ∧ find_and_extract litEngine "a\nx" "x" 0 0 false none
        = Except.ok [SearchMatch.mk "x" 2 "x" ["x"]]
    ∧ SearchMatch.mk "x" 2 "x" ["x"] ∈ [SearchMatch.mk "x" 2 "x" ["x"]]
    ∧ ∃ i : Nat, i < (pySplitLines "a\nx").length
      ∧ (SearchMatch.mk "x" 2 "x" ["x"]).line_number = i + 1
      ∧ (fun line => if pyContains line "x" then some "x" else none)
          ((pySplitLines "a\nx").getD i "")
          = some (SearchMatch.mk "x" 2 "x" ["x"]).matched
      ∧ (SearchMatch.mk "x" 2 "x" ["x"]).context_lines
          = ((pySplitLines "a\nx").drop (i - 0)).take
              (min (pySplitLines "a\nx").length (i + 1 + 0) - (i - 0))
      ∧ (0 = 0 → 0 = 0 →
          (SearchMatch.mk "x" 2 "x" ["x"]).context_lines
            = [(pySplitLines "a\nx").getD i ""]) :=
  ⟨rfl, rfl, by decide,
    spec_C6 litEngine "a\nx" "x" 0 0 false none
      (fun line => if pyContains line "x" then some "x" else none)
      [SearchMatch.mk "x" 2 "x" ["x"]] (SearchMatch.mk "x" 2 "x" ["x"])
      rfl rfl (by decide)⟩
